import Mathlib

/-!
# Verification of the role-based route-guard engine

This development embeds the access-control logic of the repository — the
`RoleBaseRoute` component (pattern matcher, decision logic, redirect-intent
handling), the `ROLES`/`hasPermission` permission system, and the
`chainMiddleware` utility — as Lean definitions, and proves the spec's
claims about them.

JavaScript platform primitives used by the code (`String.prototype.replace`
with a string pattern, `startsWith`, `endsWith`, `encodeURIComponent`,
`URLSearchParams.get`) are modelled faithfully over `List Char`.
-/

namespace RouteGuard

/-- Model of JS `s.replace(pat, rep)` with a string `pat`: replaces only the
first occurrence of `pat` in `s` (identity when `pat` does not occur). -/
def listReplaceFirst (pat rep : List Char) : List Char → List Char
  | [] => if pat.isEmpty then rep else []
  | c :: cs =>
    if pat.isPrefixOf (c :: cs) then rep ++ (c :: cs).drop pat.length
    else c :: listReplaceFirst pat rep cs

/-- JS `s.replace(pat, rep)` lifted to `String`. -/
def replaceFirst (s pat rep : String) : String :=
  ⟨listReplaceFirst pat.data rep.data s.data⟩

/-- Model of JS `s.startsWith(pre)`. -/
def jsStartsWith (s pre : String) : Bool :=
  pre.data.isPrefixOf s.data

/-- Model of JS `s.endsWith(suf)`. -/
def jsEndsWith (s suf : String) : Bool :=
  suf.data.isSuffixOf s.data

/-- Model of the JS `||` default idiom `o || d` on an optional string:
`null`/`undefined` and the empty string are falsy. -/
def jsOr (o : Option String) (d : String) : String :=
  match o with
  | some s => if s.data.isEmpty then d else s
  | none => d

/-- The `RoleRoute` record of the source: a route pattern, its required
roles, an optional fallback redirect, and an optional auth requirement. -/
structure RoleRoute where
  url : String
  role : List String
  redirect : Option String
  needAuth : Bool
deriving DecidableEq, Repr

/-- The `routeRoles` policy table of the source. -/
def routeRoles : List RoleRoute :=
  [ { url := "/admin/*", role := ["superadmin"], redirect := none, needAuth := true },
    { url := "/contact/*", role := ["anonymous", "user", "admin", "superadmin"],
      redirect := none, needAuth := false } ]

/-- The `pageAccessOnlyIfUnAuthenticated` list of the source. -/
def pageAccessOnlyIfUnAuthenticated : List String :=
  ["/signin", "/signup", "/reset-password", "/verify-email"]

/-- The matching predicate of the source's `routeRoles.find` callback:
exact equality, or, for a pattern ending in `"/*"`, a raw string test that
the path starts with `route.url.replace("/*", "")`. -/
def routeMatches (pathName : String) (route : RoleRoute) : Bool :=
  if route.url == pathName then true
  else if jsEndsWith route.url "/*" then
    jsStartsWith pathName (replaceFirst route.url "/*" "")
  else false

/-- `routeRoles.find(...)` of the source: the first route in declaration
order whose pattern matches, if any. -/
def findRoute (routes : List RoleRoute) (pathName : String) : Option RoleRoute :=
  routes.find? (routeMatches pathName)

/-- The hexadecimal digit characters produced by `encodeURIComponent`
(uppercase, as the platform emits). -/
def hexDigitChar (n : Nat) : Char :=
  if n < 10 then Char.ofNat (48 + n) else Char.ofNat (55 + n)

/-- The characters `encodeURIComponent` leaves unescaped: ASCII letters,
digits, and `- _ . ! ~ * ' ( )`. -/
def isUnreservedURI (c : Char) : Bool :=
  (65 ≤ c.toNat && c.toNat ≤ 90) || (97 ≤ c.toNat && c.toNat ≤ 122) ||
  (48 ≤ c.toNat && c.toNat ≤ 57) ||
  c == '-' || c == '_' || c == '.' || c == '!' || c == '~' || c == '*' ||
  c == '\'' || c == '(' || c == ')'

/-- UTF-8 byte sequence of a Unicode code point. -/
def utf8Bytes (n : Nat) : List Nat :=
  if n < 0x80 then [n]
  else if n < 0x800 then [0xC0 + n / 64, 0x80 + n % 64]
  else if n < 0x10000 then [0xE0 + n / 4096, 0x80 + n / 64 % 64, 0x80 + n % 64]
  else [0xF0 + n / 262144, 0x80 + n / 4096 % 64, 0x80 + n / 64 % 64, 0x80 + n % 64]

/-- Percent-escape of one byte, `%XY` with uppercase hex digits. -/
def percentEncodeByte (b : Nat) : List Char :=
  ['%', hexDigitChar (b / 16), hexDigitChar (b % 16)]

/-- `encodeURIComponent` on one character: kept verbatim when unreserved,
otherwise each UTF-8 byte is percent-escaped. -/
def encChar (c : Char) : List Char :=
  if isUnreservedURI c then [c]
  else (utf8Bytes c.toNat).foldr (fun b acc => percentEncodeByte b ++ acc) []

/-- `encodeURIComponent` over a character list. -/
def encChars : List Char → List Char
  | [] => []
  | c :: cs => encChar c ++ encChars cs

/-- Model of the platform's `encodeURIComponent`. -/
def encodeURIComponent (s : String) : String :=
  ⟨encChars s.data⟩

/-- `` `/signin?redirect=${encodeURIComponent(pathName)}` `` — the sign-in
URL the source builds when an unauthenticated visitor hits a protected
route (the spec's `signInPathWithReturnTo`). -/
def signInPathWithReturnTo (path : String) : String :=
  "/signin?redirect=" ++ encodeURIComponent path

/-- Numeric value of a hexadecimal digit character, `none` otherwise. -/
def hexVal? (c : Char) : Option Nat :=
  if 48 ≤ c.toNat && c.toNat ≤ 57 then some (c.toNat - 48)
  else if 65 ≤ c.toNat && c.toNat ≤ 70 then some (c.toNat - 55)
  else if 97 ≤ c.toNat && c.toNat ≤ 102 then some (c.toNat - 87)
  else none

/-- The byte layer of `application/x-www-form-urlencoded` decoding, as
`URLSearchParams` performs it: `+` becomes a space byte, `%` followed by
two hex digits becomes that byte, and any other character contributes its
UTF-8 bytes. -/
def percentDecodeBytes : List Char → List Nat
  | [] => []
  | '%' :: d1 :: d2 :: rest =>
    match hexVal? d1, hexVal? d2 with
    | some a, some b => (16 * a + b) :: percentDecodeBytes rest
    | _, _ => utf8Bytes '%'.toNat ++ percentDecodeBytes (d1 :: d2 :: rest)
  | c :: cs =>
    if c = '+' then 32 :: percentDecodeBytes cs
    else utf8Bytes c.toNat ++ percentDecodeBytes cs

/-- The Unicode replacement character emitted for malformed UTF-8. -/
def replacementChar : Char := Char.ofNat 0xFFFD

/-- A UTF-8 continuation byte. -/
def isContByte (b : Nat) : Bool := 0x80 ≤ b && b < 0xC0

/-- Valid second byte of a three-byte UTF-8 sequence with lead `b1`. -/
def utf8Cont2Ok (b1 b2 : Nat) : Bool :=
  if b1 == 0xE0 then 0xA0 ≤ b2 && b2 ≤ 0xBF
  else if b1 == 0xED then 0x80 ≤ b2 && b2 ≤ 0x9F
  else isContByte b2

/-- Valid second byte of a four-byte UTF-8 sequence with lead `b1`. -/
def utf8Cont4Ok (b1 b2 : Nat) : Bool :=
  if b1 == 0xF0 then 0x90 ≤ b2 && b2 ≤ 0xBF
  else if b1 == 0xF4 then 0x80 ≤ b2 && b2 ≤ 0x8F
  else isContByte b2

/-- One pass of UTF-8 decoding with replacement on malformed input, as the
platform's text decoder performs after percent-decoding. The first argument
is recursion fuel: every step emits one character, consumes at least one
byte, and spends one unit of fuel, so starting with the byte count the
fuel is never exhausted. -/
def utf8DecodeGo : Nat → List Nat → List Char
  | _, [] => []
  | 0, _ :: _ => []
  | fuel + 1, b1 :: rest =>
    if b1 < 0x80 then Char.ofNat b1 :: utf8DecodeGo fuel rest
    else if 0xC2 ≤ b1 && b1 ≤ 0xDF then
      match rest with
      | b2 :: rest2 =>
        if isContByte b2 then
          Char.ofNat ((b1 - 0xC0) * 64 + (b2 - 0x80)) :: utf8DecodeGo fuel rest2
        else replacementChar :: utf8DecodeGo fuel rest
      | [] => [replacementChar]
    else if 0xE0 ≤ b1 && b1 ≤ 0xEF then
      match rest with
      | b2 :: b3 :: rest3 =>
        if utf8Cont2Ok b1 b2 && isContByte b3 then
          Char.ofNat ((b1 - 0xE0) * 4096 + (b2 - 0x80) * 64 + (b3 - 0x80)) ::
            utf8DecodeGo fuel rest3
        else replacementChar :: utf8DecodeGo fuel rest
      | _ => replacementChar :: utf8DecodeGo fuel rest
    else if 0xF0 ≤ b1 && b1 ≤ 0xF4 then
      match rest with
      | b2 :: b3 :: b4 :: rest4 =>
        if utf8Cont4Ok b1 b2 && isContByte b3 && isContByte b4 then
          Char.ofNat ((b1 - 0xF0) * 262144 + (b2 - 0x80) * 4096 +
            (b3 - 0x80) * 64 + (b4 - 0x80)) :: utf8DecodeGo fuel rest4
        else replacementChar :: utf8DecodeGo fuel rest
      | _ => replacementChar :: utf8DecodeGo fuel rest
    else replacementChar :: utf8DecodeGo fuel rest

/-- UTF-8 decoding of a byte list. -/
def utf8Decode (l : List Nat) : List Char :=
  utf8DecodeGo l.length l

/-- Full `application/x-www-form-urlencoded` decode of a key or value. -/
def formDecode (cs : List Char) : String :=
  ⟨utf8Decode (percentDecodeBytes cs)⟩

/-- Split a character list on a separator character. -/
def splitOn (sep : Char) : List Char → List (List Char)
  | [] => [[]]
  | c :: cs =>
    if c = sep then [] :: splitOn sep cs
    else
      match splitOn sep cs with
      | [] => [[c]]
      | p :: ps => (c :: p) :: ps

/-- Split a `key=value` piece at its first `=`; a piece without `=` is all
key with an empty value. -/
def splitPair : List Char → List Char × List Char
  | [] => ([], [])
  | c :: cs =>
    if c = '=' then ([], cs)
    else ((c :: (splitPair cs).1), (splitPair cs).2)

/-- Model of `URLSearchParams(q).get(key)`: split the query on `&`, skip
empty pieces, split each piece at its first `=`, decode both sides, and
return the value of the first pair whose decoded key equals `key`. -/
def searchParamsGet (q key : String) : Option String :=
  match ((splitOn '&' q.data).filter (fun piece => !piece.isEmpty)).find?
      (fun piece => formDecode (splitPair piece).1 == key) with
  | some piece => some (formDecode (splitPair piece).2)
  | none => none

/-- The character list after the first occurrence of `sep`, if any. -/
def afterFirst (sep : Char) : List Char → Option (List Char)
  | [] => none
  | c :: cs => if c = sep then some cs else afterFirst sep cs

/-- The query string of a URL: everything after the first `?`. -/
def queryOf (url : String) : String :=
  match afterFirst '?' url.data with
  | some r => ⟨r⟩
  | none => ""

/-- The spec's `resolveReturnTo`: the decoded `redirect` query parameter,
defaulting to the home path — in the source, `searchParams.get("redirect")`
consumed as `redirectTo || "/"`. -/
def resolveReturnTo (q : String) : String :=
  jsOr (searchParamsGet q "redirect") "/"

/-- A valid path: starts with `/` and consists of ASCII characters. -/
def ValidPath (s : String) : Prop :=
  jsStartsWith s "/" = true ∧ ∀ c ∈ s.data, c.toNat < 128

instance (s : String) : Decidable (ValidPath s) := by
  unfold ValidPath; infer_instance

/-- The reason tags of the spec's `GuardDecision` record, naming the four
outcomes of the source's decision logic. -/
inductive GuardReason where
  | NONE
  | NOT_AUTHENTICATED
  | MISSING_ROLE
  | AUTH_ONLY_PAGE
deriving DecidableEq, Repr

/-- The spec's `GuardDecision`: whether access is allowed, where the
source's `router.replace`/`router.push` would send the visitor, and why. -/
structure GuardDecision where
  allowed : Bool
  redirectTo : Option String
  reason : GuardReason
deriving DecidableEq, Repr

/-- The spec's `Identity`: the source derives `userRoles` from the user
object and `isAuthenticated` from the user plus the auth cookie. -/
structure Identity where
  roles : List String
  authenticated : Bool
deriving DecidableEq, Repr

/-- The policy-table decision of the source's main effect, as a
`GuardDecision`: find the current route; if it needs auth and the visitor
is unauthenticated, redirect to the sign-in URL carrying the path; if the
visitor is authenticated and `currentRoute.role.some(role =>
userRoles.includes(role))` fails, redirect to `currentRoute.redirect ||
"/"`; otherwise (including when no route matches) allow. -/
def decideRoute (routes : List RoleRoute) (ident : Identity) (pathName : String) :
    GuardDecision :=
  match findRoute routes pathName with
  | none => { allowed := true, redirectTo := none, reason := .NONE }
  | some currentRoute =>
    if currentRoute.needAuth && !ident.authenticated then
      { allowed := false, redirectTo := some (signInPathWithReturnTo pathName),
        reason := .NOT_AUTHENTICATED }
    else if ident.authenticated then
      if !(currentRoute.role.any (fun role => ident.roles.contains role)) then
        { allowed := false, redirectTo := some (jsOr currentRoute.redirect "/"),
          reason := .MISSING_ROLE }
      else { allowed := true, redirectTo := none, reason := .NONE }
    else { allowed := true, redirectTo := none, reason := .NONE }

/-- The engine's configuration surface (§6 of the spec): the policy table,
the auth-only-forbidden page set, and the default home path. -/
structure GuardConfig where
  policies : List RoleRoute
  authOnlyForbiddenPaths : List String
  defaultHome : String
deriving Repr

/-- The combined engine: the source's separate effect denying authenticated
visitors the `pageAccessOnlyIfUnAuthenticated` pages (`router.push(redirectTo
|| "/")`, with `redirectTo` the pending return-to query parameter) overrides
the policy-table decision for that fixed page set. -/
def engineDecide (cfg : GuardConfig) (ident : Identity) (pathName : String)
    (pendingReturnTo : Option String) : GuardDecision :=
  if ident.authenticated && cfg.authOnlyForbiddenPaths.contains pathName then
    { allowed := false, redirectTo := some (jsOr pendingReturnTo cfg.defaultHome),
      reason := .AUTH_ONLY_PAGE }
  else decideRoute cfg.policies ident pathName

/-- Whether the two-character marker `/*` occurs anywhere in a character
list (used to delimit the patterns on which the source's
`url.replace("/*", "")` strips exactly the trailing marker). -/
def containsSlashStar : List Char → Bool
  | [] => false
  | [_] => false
  | c :: d :: rest => (c == '/' && d == '*') || containsSlashStar (d :: rest)

/-- The `/admin/*` policy of the source's `routeRoles` table. -/
def adminWildcardPolicy : RoleRoute :=
  { url := "/admin/*", role := ["superadmin"], redirect := none, needAuth := true }

/-- A policy for `/admin/billing/*`, as in the spec's overlapping-prefix
example. -/
def billingWildcardPolicy : RoleRoute :=
  { url := "/admin/billing/*", role := ["superadmin"], redirect := none, needAuth := true }

end RouteGuard

namespace Rbac

/-- The `User` record of the permissions module. Roles are represented as
strings, as in the JS runtime. -/
structure User where
  roles : List String
  id : String
deriving DecidableEq, Repr

/-- The `ROLES` table as a runtime lookup: the permission list of each of
the three known roles, and `none` for any role absent from the table (in
the source, `ROLES[role]` for an absent role evaluates to `undefined`). -/
def ROLES (role : String) : Option (List String) :=
  if role == "admin" then
    some ["view:comments", "create:comments", "update:comments", "delete:comments"]
  else if role == "moderator" then
    some ["view:comments", "create:comments", "delete:comments"]
  else if role == "user" then
    some ["view:comments", "create:comments"]
  else none

/-- The error taxonomy of the spec's Role Resolver. -/
inductive RbacError where
  | UnknownRole
deriving DecidableEq, Repr

/-- The spec's `permissionsOf`: the permission set of a role, failing with
the distinguished `UnknownRole` error when the role is absent from the
table. In the source, `ROLES[role]` for an absent role is `undefined` and
the subsequent `.includes` call on it throws; the throw is embedded as the
error case. -/
def permissionsOf (role : String) : Except RbacError (List String) :=
  match ROLES role with
  | some ps => .ok ps
  | none => .error .UnknownRole

/-- The left-to-right, short-circuiting walk of `user.roles.some(role =>
ROLES[role].includes(permission))`: reaching a role absent from the table
fails (the source throws there) rather than treating it as an empty
permission set. -/
def somePermitted (permission : String) : List String → Except RbacError Bool
  | [] => .ok false
  | role :: rest =>
    match permissionsOf role with
    | .error e => .error e
    | .ok ps => if ps.contains permission then .ok true else somePermitted permission rest

/-- `hasPermission(user, permission)` of the source. -/
def hasPermission (user : User) (permission : String) : Except RbacError Bool :=
  somePermitted permission user.roles

end Rbac

namespace MiddlewareChain

/-- `CustomMiddleware`: a function of the request, the fetch event, and the
response. The asynchronous wrapper of the source is elided; the request,
event, and response types are kept abstract. -/
def CustomMiddleware (Req Ev Resp : Type) : Type :=
  Req → Ev → Resp → Resp

/-- `MiddlewareFactory`: wraps the next middleware into a new one. -/
def MiddlewareFactory (Req Ev Resp : Type) : Type :=
  CustomMiddleware Req Ev Resp → CustomMiddleware Req Ev Resp

/-- `chainMiddleware(functions, index)`: if `functions[index]` exists, wrap
the chain of the remaining factories with it; otherwise return the
middleware that returns its `response` argument unchanged. -/
def chainMiddleware {Req Ev Resp : Type}
    (functions : List (MiddlewareFactory Req Ev Resp)) (index : Nat) :
    CustomMiddleware Req Ev Resp :=
  match h : functions[index]? with
  | some current => current (chainMiddleware functions (index + 1))
  | none => fun _request _event response => response
termination_by functions.length - index
decreasing_by
  have : index < functions.length := by
    by_contra hlt
    rw [List.getElem?_eq_none (Nat.le_of_not_lt hlt)] at h
    exact Option.noConfusion h
  omega

end MiddlewareChain

namespace RouteGuard

/-- **C4**: a path that matches no policy is allowed for every identity,
with reason `NONE` and no redirect — fail-open for unlisted routes. -/
theorem decide_fail_open (routes : List RoleRoute) (ident : Identity) (path : String)
    (h : findRoute routes path = none) :
    decideRoute routes ident path =
      { allowed := true, redirectTo := none, reason := .NONE } := by
  unfold decideRoute
  rw [h]

/-- Witness for `decide_fail_open`: `/about` matches no policy of the
source's table and is allowed to an unauthenticated visitor. -/
theorem decide_fail_open_witness :
    findRoute routeRoles "/about" = none ∧
    decideRoute routeRoles { roles := ["user"], authenticated := false } "/about" =
      { allowed := true, redirectTo := none, reason := .NONE } :=
  ⟨by decide,
   decide_fail_open routeRoles { roles := ["user"], authenticated := false } "/about"
     (by decide)⟩

/-- **C2**: when the matched policy requires authentication and the
identity is unauthenticated, the decision is a denial with reason
`NOT_AUTHENTICATED` whose redirect target is the sign-in path carrying the
requested path, URL-encoded, as the return-to parameter — regardless of
the identity's roles, so this rule fires before the role check. -/
theorem decide_not_authenticated (routes : List RoleRoute) (ident : Identity)
    (path : String) (r : RoleRoute) (hfind : findRoute routes path = some r)
    (hauth : r.needAuth = true) (hid : ident.authenticated = false) :
    decideRoute routes ident path =
      { allowed := false,
        redirectTo := some ("/signin?redirect=" ++ encodeURIComponent path),
        reason := .NOT_AUTHENTICATED } := by
  unfold decideRoute
  rw [hfind]
  simp [hauth, hid, signInPathWithReturnTo]

/-- Witness for `decide_not_authenticated`: an unauthenticated visitor on
`/admin/dashboard` is sent to sign-in with the encoded path. -/
theorem decide_not_authenticated_witness :
    decideRoute routeRoles { roles := ["superadmin"], authenticated := false }
        "/admin/dashboard" =
      { allowed := false,
        redirectTo := some ("/signin?redirect=" ++ encodeURIComponent "/admin/dashboard"),
        reason := .NOT_AUTHENTICATED } :=
  decide_not_authenticated routeRoles { roles := ["superadmin"], authenticated := false }
    "/admin/dashboard"
    { url := "/admin/*", role := ["superadmin"], redirect := none, needAuth := true }
    (by decide) rfl rfl

/-- **C3**: an authenticated identity holding none of the matched policy's
required roles is denied with reason `MISSING_ROLE` and redirected to the
policy's fallback when set (the JS `||` default), else `/`; concretely, an
authenticated `["user"]` on `/admin/dashboard` under the `/admin/*` policy
with no fallback is denied with redirect `/`. -/
theorem decide_missing_role :
    (∀ (routes : List RoleRoute) (ident : Identity) (path : String) (r : RoleRoute),
      findRoute routes path = some r → ident.authenticated = true →
      (∀ ro ∈ r.role, ro ∉ ident.roles) →
      decideRoute routes ident path =
        { allowed := false, redirectTo := some (jsOr r.redirect "/"),
          reason := .MISSING_ROLE }) ∧
    decideRoute
        [{ url := "/admin/*", role := ["superadmin"], redirect := none, needAuth := true }]
        { roles := ["user"], authenticated := true } "/admin/dashboard" =
      { allowed := false, redirectTo := some "/", reason := .MISSING_ROLE } := by
  constructor
  · intro routes ident path r hfind hauth hroles
    unfold decideRoute
    rw [hfind]
    have hany : r.role.any (fun role => ident.roles.contains role) = false := by
      rw [List.any_eq_false]
      intro x hx
      simpa using hroles x hx
    simp [hauth, hany]
    exact hroles
  · decide

/-- Witness for `decide_missing_role`: the universal part applied to the
source's own table at `/admin/dashboard`. -/
theorem decide_missing_role_witness :
    decideRoute routeRoles { roles := ["user"], authenticated := true } "/admin/dashboard" =
      { allowed := false, redirectTo := some "/", reason := .MISSING_ROLE } :=
  decide_missing_role.1 routeRoles { roles := ["user"], authenticated := true }
    "/admin/dashboard"
    { url := "/admin/*", role := ["superadmin"], redirect := none, needAuth := true }
    (by decide) rfl (by decide)

/-- **C6**: an authenticated identity requesting a path in the configured
auth-only-forbidden set is denied with reason `AUTH_ONLY_PAGE` and
redirected to the pending return-to path when present (JS `||` default),
else the default home, for every policy table; concretely, authenticated on
`/signin` with `authOnlyForbiddenPaths = ["/signin","/signup"]` is denied
with redirect to the default home. -/
theorem engine_auth_only_page :
    (∀ (cfg : GuardConfig) (ident : Identity) (path : String)
        (pending : Option String),
      ident.authenticated = true → path ∈ cfg.authOnlyForbiddenPaths →
      engineDecide cfg ident path pending =
        { allowed := false, redirectTo := some (jsOr pending cfg.defaultHome),
          reason := .AUTH_ONLY_PAGE }) ∧
    engineDecide
        { policies := routeRoles, authOnlyForbiddenPaths := ["/signin", "/signup"],
          defaultHome := "/" }
        { roles := [], authenticated := true } "/signin" none =
      { allowed := false, redirectTo := some "/", reason := .AUTH_ONLY_PAGE } := by
  constructor
  · intro cfg ident path pending hauth hmem
    unfold engineDecide
    have hc : cfg.authOnlyForbiddenPaths.contains path = true := by simpa using hmem
    simp [hauth, hc]
    exact fun hn => absurd hmem hn
  · decide

/-- Witness for `engine_auth_only_page`: the universal part applied with
the source's full `pageAccessOnlyIfUnAuthenticated` list and a pending
return-to target. -/
theorem engine_auth_only_page_witness :
    engineDecide
        { policies := routeRoles,
          authOnlyForbiddenPaths := pageAccessOnlyIfUnAuthenticated,
          defaultHome := "/" }
        { roles := ["user"], authenticated := true } "/signup"
        (some "/admin/dashboard") =
      { allowed := false, redirectTo := some "/admin/dashboard",
        reason := .AUTH_ONLY_PAGE } :=
  engine_auth_only_page.1
    { policies := routeRoles, authOnlyForbiddenPaths := pageAccessOnlyIfUnAuthenticated,
      defaultHome := "/" }
    { roles := ["user"], authenticated := true } "/signup" (some "/admin/dashboard")
    rfl (by decide)

/-- `List.find?` returns the first element satisfying the predicate: every
earlier element fails it. -/
lemma find?_eq_some_first {α : Type} (p : α → Bool) (l : List α) (a : α)
    (h : l.find? p = some a) :
    p a = true ∧ ∃ l₁ l₂, l = l₁ ++ a :: l₂ ∧ ∀ b ∈ l₁, p b = false := by
  induction l with
  | nil => simp [List.find?] at h
  | cons x xs ih =>
    by_cases hx : p x = true
    · rw [List.find?_cons_of_pos _ hx] at h
      obtain rfl : x = a := Option.some.inj h
      exact ⟨hx, [], xs, rfl, by simp⟩
    · rw [List.find?_cons_of_neg _ hx] at h
      obtain ⟨hpa, l₁, l₂, rfl, hl₁⟩ := ih h
      refine ⟨hpa, x :: l₁, l₂, rfl, ?_⟩
      intro b hb
      rcases List.mem_cons.mp hb with rfl | hb'
      · simpa using hx
      · exact hl₁ b hb'

/-- **C1** (counterexample): with the `/admin/*` policy declared before the
`/admin/billing/*` policy, the matcher selects the `/admin/*` policy for
`/admin/billing/invoice` — declaration order, not specificity, decides. -/
theorem wildcard_specificity_counterexample :
    findRoute [adminWildcardPolicy, billingWildcardPolicy] "/admin/billing/invoice" =
      some adminWildcardPolicy ∧
    adminWildcardPolicy ≠ billingWildcardPolicy := by decide

/-- **C1** (amended): the matcher returns the first policy in declaration
order whose pattern matches the path; all earlier-declared policies fail to
match. Hence `/admin/billing/invoice` selects `/admin/billing/*` when that
policy is declared before `/admin/*`, but selects `/admin/*` when the
declaration order is reversed. -/
theorem findRoute_first_declared :
    (∀ (routes : List RoleRoute) (path : String) (r : RoleRoute),
      findRoute routes path = some r →
      routeMatches path r = true ∧
      ∃ l₁ l₂, routes = l₁ ++ r :: l₂ ∧ ∀ r' ∈ l₁, routeMatches path r' = false) ∧
    findRoute [billingWildcardPolicy, adminWildcardPolicy] "/admin/billing/invoice" =
      some billingWildcardPolicy ∧
    findRoute [adminWildcardPolicy, billingWildcardPolicy] "/admin/billing/invoice" =
      some adminWildcardPolicy := by
  refine ⟨?_, by decide, by decide⟩
  intro routes path r h
  exact find?_eq_some_first (routeMatches path) routes r h

/-- Witness for `findRoute_first_declared`: the universal part applied to
the source's own table, where `/admin/dashboard` picks the `/admin/*`
policy with nothing declared before it. -/
theorem findRoute_first_declared_witness :
    routeMatches "/admin/dashboard" adminWildcardPolicy = true ∧
    ∃ l₁ l₂, routeRoles = l₁ ++ adminWildcardPolicy :: l₂ ∧
      ∀ r' ∈ l₁, routeMatches "/admin/dashboard" r' = false :=
  findRoute_first_declared.1 routeRoles "/admin/dashboard" adminWildcardPolicy (by decide)

/-- `containsSlashStar` is monotone under dropping the head. -/
lemma containsSlashStar_tail {c : Char} {l : List Char}
    (h : containsSlashStar (c :: l) = false) : containsSlashStar l = false := by
  cases l with
  | nil => rfl
  | cons d l' =>
    rw [containsSlashStar] at h
    exact (Bool.or_eq_false_iff.mp h).2

/-- Stripping the first `/*` occurrence from `l ++ "/*"` yields `l` when
`/*` does not occur inside `l` (the appended marker is then the first
occurrence; no occurrence can straddle the boundary because the marker
starts with `/` and not `*`). -/
lemma listReplaceFirst_strip_marker (l : List Char)
    (h : containsSlashStar l = false) :
    listReplaceFirst ['/', '*'] [] (l ++ ['/', '*']) = l := by
  induction l with
  | nil => decide
  | cons c l' ih =>
    rw [List.cons_append, listReplaceFirst]
    have hpre : (['/', '*'] : List Char).isPrefixOf (c :: (l' ++ ['/', '*'])) = false := by
      cases l' with
      | nil =>
        simp [List.isPrefixOf]
      | cons d l'' =>
        rw [containsSlashStar] at h
        have hcd : (c == '/' && d == '*') = false := (Bool.or_eq_false_iff.mp h).1
        simp only [List.cons_append, List.isPrefixOf]
        by_cases hc : c = '/'
        · subst hc
          by_cases hd : d = '*'
          · subst hd
            simp at hcd
          · have h2 : ('*' == d) = false := by
              rw [beq_eq_false_iff_ne]
              exact fun hx => hd hx.symm
            simp [h2]
        · have h1 : ('/' == c) = false := by
            rw [beq_eq_false_iff_ne]
            exact fun hx => hc hx.symm
          simp [h1]
    rw [hpre]
    simp only [Bool.false_eq_true, if_false]
    rw [ih (containsSlashStar_tail h)]

/-- **C9** (counterexample): for the pattern `B ++ "/*"` with
`B = "/a/*b"`, the path `/a/*b/c` starts with `B` yet does not match,
because the source's `replace("/*", "")` strips the first `/*` occurrence,
which here lies inside `B`. -/
theorem wildcard_raw_replace_counterexample :
    jsStartsWith "/a/*b/c" "/a/*b" = true ∧
    routeMatches "/a/*b/c"
      { url := "/a/*b" ++ "/*", role := [], redirect := none, needAuth := false } =
      false := by decide

/-- **C9** (amended): for every pattern `B ++ "/*"` whose only `/*`
occurrence is the trailing marker, a path matches iff the path string
starts with `B` — a raw prefix test with no segment boundary; in
particular `/administrator` matches `/admin/*`. -/
theorem routeMatches_wildcard_iff_startsWith :
    (∀ (B : String) (roles : List String) (redir : Option String) (na : Bool)
        (path : String), containsSlashStar B.data = false →
      (routeMatches path (RoleRoute.mk (B ++ "/*") roles redir na) = true ↔
        jsStartsWith path B = true)) ∧
    routeMatches "/administrator" adminWildcardPolicy = true := by
  refine ⟨?_, by decide⟩
  intro B roles redir na path hB
  have hdata : (B ++ "/*").data = B.data ++ ['/', '*'] := by
    rw [String.data_append]
  have hsuf : jsEndsWith (B ++ "/*") "/*" = true := by
    rw [jsEndsWith, List.isSuffixOf_iff_suffix, hdata]
    exact List.suffix_append B.data ['/', '*']
  have hrepl : replaceFirst (B ++ "/*") "/*" "" = B := by
    rw [replaceFirst]
    show String.mk (listReplaceFirst ['/', '*'] [] ((B ++ "/*").data)) = B
    rw [hdata, listReplaceFirst_strip_marker B.data hB]
  rw [routeMatches]
  by_cases heq : (B ++ "/*") == path
  · have hpath : path = B ++ "/*" := (eq_of_beq heq).symm
    simp only [heq, if_true]
    have : jsStartsWith path B = true := by
      rw [hpath, jsStartsWith, List.isPrefixOf_iff_prefix, hdata]
      exact List.prefix_append B.data ['/', '*']
    simp [this]
  · simp only [heq, Bool.false_eq_true, if_false, hsuf, if_true, hrepl]

/-- Witness for `routeMatches_wildcard_iff_startsWith`: applied to the
source's `/admin/*` pattern and the path `/administrator`. -/
theorem routeMatches_wildcard_iff_startsWith_witness :
    routeMatches "/administrator"
      (RoleRoute.mk ("/admin" ++ "/*") ["superadmin"] none true) = true ↔
      jsStartsWith "/administrator" "/admin" = true :=
  routeMatches_wildcard_iff_startsWith.1 "/admin" ["superadmin"] none true
    "/administrator" (by decide)

end RouteGuard

namespace Rbac

/-- **C7**: a role absent from the role→permission table fails with the
distinguished `UnknownRole` error — both through `permissionsOf` and as
exercised by `hasPermission` on an identity holding that role — rather
than being silently treated as an empty permission set. -/
theorem unknown_role_fails (role : String) (h : ROLES role = none) :
    permissionsOf role = .error .UnknownRole ∧
    ∀ (uid p : String),
      hasPermission { roles := [role], id := uid } p = .error .UnknownRole := by
  constructor
  · unfold permissionsOf
    rw [h]
  · intro uid p
    unfold hasPermission
    unfold somePermitted permissionsOf
    rw [h]

/-- Witness for `unknown_role_fails`: the role `"ghost"` is absent from
`ROLES`, and a user holding only it gets `UnknownRole`. -/
theorem unknown_role_fails_witness :
    permissionsOf "ghost" = .error .UnknownRole ∧
    hasPermission { roles := ["ghost"], id := "1" } "view:comments" =
      .error .UnknownRole :=
  ⟨(unknown_role_fails "ghost" (by decide)).1,
   (unknown_role_fails "ghost" (by decide)).2 "1" "view:comments"⟩

/-- The short-circuit walk succeeds with `true` exactly when some role in
the list grants the permission, provided every role is in the table. -/
lemma somePermitted_ok_true_iff (p : String) :
    ∀ roles : List String, (∀ r ∈ roles, (ROLES r).isSome) →
      (somePermitted p roles = .ok true ↔
        ∃ r ∈ roles, ∃ ps, ROLES r = some ps ∧ p ∈ ps) := by
  intro roles
  induction roles with
  | nil =>
    intro _
    simp [somePermitted]
  | cons r rest ih =>
    intro h
    obtain ⟨ps, hps⟩ := Option.isSome_iff_exists.mp (h r (by simp))
    rw [somePermitted]
    unfold permissionsOf
    rw [hps]
    by_cases hmem : ps.contains p = true
    · simp only [hmem, if_true]
      constructor
      · intro _
        exact ⟨r, by simp, ps, hps, by simpa using hmem⟩
      · intro _
        trivial
    · simp only [hmem, Bool.false_eq_true, if_false]
      rw [ih (fun x hx => h x (by simp [hx]))]
      constructor
      · rintro ⟨x, hx, ps', hps', hpx⟩
        exact ⟨x, by simp [hx], ps', hps', hpx⟩
      · rintro ⟨x, hx, ps', hps', hpx⟩
        rcases List.mem_cons.mp hx with rfl | hx'
        · exfalso
          rw [hps] at hps'
          obtain rfl := Option.some.inj hps'
          exact hmem (by simpa using hpx)
        · exact ⟨x, hx', ps', hps', hpx⟩

/-- **C8**: `hasPermission(identity, permission)` is true iff some role
held by the identity has that permission in the table (when all held roles
are known); in particular, under the fixed `ROLES` table, `admin` may
delete comments and `user` may not. -/
theorem hasPermission_iff :
    (∀ (u : User) (p : String), (∀ r ∈ u.roles, (ROLES r).isSome) →
      (hasPermission u p = .ok true ↔ ∃ r ∈ u.roles, ∃ ps, ROLES r = some ps ∧ p ∈ ps)) ∧
    hasPermission { roles := ["admin"], id := "1" } "delete:comments" = .ok true ∧
    hasPermission { roles := ["user"], id := "1" } "delete:comments" = .ok false := by
  refine ⟨?_, rfl, rfl⟩
  intro u p h
  exact somePermitted_ok_true_iff p u.roles h

/-- Witness for `hasPermission_iff`: the universal part applied to a
moderator. -/
theorem hasPermission_iff_witness :
    hasPermission { roles := ["moderator"], id := "2" } "delete:comments" = .ok true ↔
      ∃ r ∈ ["moderator"], ∃ ps, ROLES r = some ps ∧ "delete:comments" ∈ ps :=
  hasPermission_iff.1 { roles := ["moderator"], id := "2" } "delete:comments" (by decide)

end Rbac

namespace MiddlewareChain

/-- One unfolding of `chainMiddleware` when a factory exists at the index. -/
lemma chainMiddleware_eq_some {Req Ev Resp : Type}
    (fns : List (MiddlewareFactory Req Ev Resp)) (idx : Nat)
    (cur : MiddlewareFactory Req Ev Resp) (h : fns[idx]? = some cur) :
    chainMiddleware fns idx = cur (chainMiddleware fns (idx + 1)) := by
  rw [chainMiddleware]
  split
  · rename_i cur' h'
    rw [h] at h'
    obtain rfl := Option.some.inj h'
    rfl
  · rename_i h'
    rw [h] at h'
    exact Option.noConfusion h'

/-- One unfolding of `chainMiddleware` past the end of the list. -/
lemma chainMiddleware_eq_none {Req Ev Resp : Type}
    (fns : List (MiddlewareFactory Req Ev Resp)) (idx : Nat) (h : fns[idx]? = none) :
    chainMiddleware fns idx = fun _request _event response => response := by
  rw [chainMiddleware]
  split
  · rename_i cur' h'
    rw [h] at h'
    exact Option.noConfusion h'
  · rfl

/-- **C10**: `chainMiddleware` is a total function satisfying the source's
recursion — wrap `functions[index]` around the chain starting at
`index + 1` when it exists — and in the base case (once the index is past
the end, in particular for the empty list) it returns a middleware that
returns its response argument unchanged for every request and event. -/
theorem chainMiddleware_spec :
    ∀ (Req Ev Resp : Type) (fns : List (MiddlewareFactory Req Ev Resp)) (idx : Nat),
      (∀ cur, fns[idx]? = some cur →
        chainMiddleware fns idx = cur (chainMiddleware fns (idx + 1))) ∧
      (fns[idx]? = none →
        ∀ (req : Req) (ev : Ev) (resp : Resp),
          chainMiddleware fns idx req ev resp = resp) ∧
      (∀ (req : Req) (ev : Ev) (resp : Resp),
        chainMiddleware ([] : List (MiddlewareFactory Req Ev Resp)) 0 req ev resp =
          resp) := by
  intro Req Ev Resp fns idx
  refine ⟨fun cur h => chainMiddleware_eq_some fns idx cur h, ?_, ?_⟩
  · intro h req ev resp
    rw [chainMiddleware_eq_none fns idx h]
  · intro req ev resp
    rw [chainMiddleware_eq_none ([] : List (MiddlewareFactory Req Ev Resp)) 0 rfl]

/-- Witness for `chainMiddleware_spec`: the empty chain at `Nat`-typed
request, event, and response returns the response unchanged. -/
theorem chainMiddleware_spec_witness :
    chainMiddleware ([] : List (MiddlewareFactory Nat Nat Nat)) 0 1 2 3 = 3 :=
  (chainMiddleware_spec Nat Nat Nat [] 0).2.1 rfl 1 2 3

end MiddlewareChain

namespace RouteGuard

/-- Two strings with the same character data are equal. -/
lemma string_eq_of_data (s t : String) (h : s.data = t.data) : s = t :=
  congrArg String.mk h

/-- `hexVal?` inverts `hexDigitChar` on digit values. -/
lemma hexVal?_hexDigitChar : ∀ d, d < 16 → hexVal? (hexDigitChar d) = some d := by
  decide

/-- An unreserved character is emitted verbatim. -/
lemma encChar_unreserved {c : Char} (h : isUnreservedURI c = true) :
    encChar c = [c] := by
  simp [encChar, h]

/-- A reserved ASCII character is emitted as one percent-escaped byte. -/
lemma encChar_escaped_ascii {c : Char} (h : isUnreservedURI c = false)
    (ha : c.toNat < 128) :
    encChar c = ['%', hexDigitChar (c.toNat / 16), hexDigitChar (c.toNat % 16)] := by
  simp [encChar, h, utf8Bytes, ha, percentEncodeByte]

lemma pdb_nil : percentDecodeBytes [] = [] := rfl

/-- Decoding steps over a character that is neither `%` nor `+`. -/
lemma pdb_cons_other {c : Char} (cs : List Char) (h1 : c ≠ '%') (h2 : c ≠ '+') :
    percentDecodeBytes (c :: cs) = utf8Bytes c.toNat ++ percentDecodeBytes cs := by
  rcases cs with _ | ⟨x, _ | ⟨y, r⟩⟩ <;> simp [percentDecodeBytes, h1, h2]

/-- Decoding a valid percent-escape yields the encoded byte. -/
lemma pdb_cons_escape {d1 d2 : Char} {a b : Nat} (rest : List Char)
    (ha : hexVal? d1 = some a) (hb : hexVal? d2 = some b) :
    percentDecodeBytes ('%' :: d1 :: d2 :: rest) =
      (16 * a + b) :: percentDecodeBytes rest := by
  rw [percentDecodeBytes]
  simp [ha, hb]

/-- One fuelled step on an ASCII byte. -/
lemma utf8DecodeGo_ascii_cons {b : Nat} (fuel : Nat) (rest : List Nat) (h : b < 128) :
    utf8DecodeGo (fuel + 1) (b :: rest) = Char.ofNat b :: utf8DecodeGo fuel rest := by
  rw [utf8DecodeGo.eq_def]
  dsimp only
  rw [if_pos h]

/-- UTF-8 decoding of an ASCII byte. -/
lemma utf8Decode_ascii_cons {b : Nat} (rest : List Nat) (h : b < 128) :
    utf8Decode (b :: rest) = Char.ofNat b :: utf8Decode rest := by
  show utf8DecodeGo (b :: rest).length (b :: rest) = _
  rw [List.length_cons, utf8DecodeGo_ascii_cons rest.length rest h]
  rfl

/-- Form-decoding inverts `encodeURIComponent` character-wise on ASCII
input. -/
lemma decode_encChars (l : List Char) (h : ∀ c ∈ l, c.toNat < 128) :
    utf8Decode (percentDecodeBytes (encChars l)) = l := by
  induction l with
  | nil => rfl
  | cons c cs ih =>
    have hc : c.toNat < 128 := h c (by simp)
    have ih' := ih (fun x hx => h x (by simp [hx]))
    by_cases hu : isUnreservedURI c = true
    · have hcp : c ≠ '%' := fun he => by rw [he] at hu; exact absurd hu (by decide)
      have hcq : c ≠ '+' := fun he => by rw [he] at hu; exact absurd hu (by decide)
      rw [encChars, encChar_unreserved hu, List.singleton_append,
        pdb_cons_other _ hcp hcq]
      rw [show utf8Bytes c.toNat = [c.toNat] from by simp [utf8Bytes, hc]]
      rw [List.singleton_append, utf8Decode_ascii_cons _ hc, Char.ofNat_toNat, ih']
    · have hdiv : c.toNat / 16 < 16 := Nat.div_lt_of_lt_mul (by omega)
      have hmod : c.toNat % 16 < 16 := Nat.mod_lt _ (by omega)
      rw [encChars, encChar_escaped_ascii (by simpa using hu) hc]
      show utf8Decode (percentDecodeBytes
        ('%' :: hexDigitChar (c.toNat / 16) :: hexDigitChar (c.toNat % 16) ::
          encChars cs)) = c :: cs
      rw [pdb_cons_escape _ (hexVal?_hexDigitChar _ hdiv) (hexVal?_hexDigitChar _ hmod)]
      rw [Nat.div_add_mod c.toNat 16, utf8Decode_ascii_cons _ hc, Char.ofNat_toNat, ih']

/-- Every character emitted by `encodeURIComponent` on ASCII input is
unreserved, `%`, or a hex digit. -/
lemma encChars_mem (l : List Char) (h : ∀ c ∈ l, c.toNat < 128) :
    ∀ x ∈ encChars l,
      isUnreservedURI x = true ∨ x = '%' ∨ ∃ d, d < 16 ∧ x = hexDigitChar d := by
  induction l with
  | nil =>
    intro x hx
    rw [encChars] at hx
    cases hx
  | cons c cs ih =>
    intro x hx
    rw [encChars] at hx
    rcases List.mem_append.mp hx with hx1 | hx2
    · by_cases hu : isUnreservedURI c = true
      · rw [encChar_unreserved hu] at hx1
        simp at hx1
        subst hx1
        exact Or.inl hu
      · have hc : c.toNat < 128 := h c (by simp)
        rw [encChar_escaped_ascii (by simpa using hu) hc] at hx1
        simp at hx1
        rcases hx1 with rfl | rfl | rfl
        · exact Or.inr (Or.inl rfl)
        · exact Or.inr (Or.inr ⟨c.toNat / 16, Nat.div_lt_of_lt_mul (by omega), rfl⟩)
        · exact Or.inr (Or.inr ⟨c.toNat % 16, Nat.mod_lt _ (by omega), rfl⟩)
    · exact ih (fun y hy => h y (by simp [hy])) x hx2

/-- `encodeURIComponent` output on ASCII input never contains `&`. -/
lemma encChars_ne_amp (l : List Char) (h : ∀ c ∈ l, c.toNat < 128) :
    ∀ x ∈ encChars l, x ≠ '&' := by
  intro x hx he
  rcases encChars_mem l h x hx with h1 | h2 | ⟨d, hd, h3⟩
  · rw [he] at h1
    exact absurd h1 (by decide)
  · rw [he] at h2
    exact absurd h2 (by decide)
  · rw [he] at h3
    exact (by decide : ∀ d, d < 16 → hexDigitChar d ≠ '&') d hd h3.symm

/-- A list without the separator splits to itself. -/
lemma splitOn_no_sep (sep : Char) (l : List Char) (h : ∀ c ∈ l, c ≠ sep) :
    splitOn sep l = [l] := by
  induction l with
  | nil => rw [splitOn]
  | cons c cs ih =>
    rw [splitOn, if_neg (h c (by simp)), ih (fun x hx => h x (by simp [hx]))]

/-- Splitting `key=value` at the first `=` when the key has none. -/
lemma splitPair_eq (k v : List Char) (h : ∀ c ∈ k, c ≠ '=') :
    splitPair (k ++ '=' :: v) = (k, v) := by
  induction k with
  | nil =>
    rw [List.nil_append, splitPair, if_pos rfl]
  | cons c k' ih =>
    rw [List.cons_append, splitPair, if_neg (h c (by simp)),
      ih (fun x hx => h x (by simp [hx]))]

/-- `afterFirst` finds the first separator occurrence. -/
lemma afterFirst_append (sep : Char) (pre rest : List Char)
    (h : ∀ c ∈ pre, c ≠ sep) :
    afterFirst sep (pre ++ sep :: rest) = some rest := by
  induction pre with
  | nil => rw [List.nil_append, afterFirst, if_pos rfl]
  | cons c p ih =>
    rw [List.cons_append, afterFirst, if_neg (h c (by simp))]
    exact ih (fun x hx => h x (by simp [hx]))

/-- Percent-decoding is the identity (as bytes) on unreserved ASCII. -/
lemma pdb_all_unreserved (l : List Char)
    (h : ∀ c ∈ l, isUnreservedURI c = true ∧ c.toNat < 128) :
    percentDecodeBytes l = l.map Char.toNat := by
  induction l with
  | nil => rw [pdb_nil, List.map_nil]
  | cons c cs ih =>
    obtain ⟨hu, ha⟩ := h c (by simp)
    have hcp : c ≠ '%' := fun he => by rw [he] at hu; exact absurd hu (by decide)
    have hcq : c ≠ '+' := fun he => by rw [he] at hu; exact absurd hu (by decide)
    rw [pdb_cons_other _ hcp hcq, ih (fun x hx => h x (by simp [hx]))]
    rw [show utf8Bytes c.toNat = [c.toNat] from by simp [utf8Bytes, ha]]
    rw [List.singleton_append, List.map_cons]

/-- UTF-8 decoding is `Char.ofNat` byte-wise on ASCII bytes. -/
lemma utf8Decode_all_ascii (l : List Nat) (h : ∀ b ∈ l, b < 128) :
    utf8Decode l = l.map Char.ofNat := by
  induction l with
  | nil => rfl
  | cons b bs ih =>
    rw [utf8Decode_ascii_cons _ (h b (by simp)), List.map_cons,
      ih (fun x hx => h x (by simp [hx]))]

/-- The literal key `redirect` form-decodes to itself. -/
lemma formDecode_redirect_key : formDecode ("redirect".data) = "redirect" := by
  rw [formDecode, pdb_all_unreserved _ (by decide), utf8Decode_all_ascii _ (by decide)]
  decide

/-- `URLSearchParams` lookup of `redirect` on the query the source builds
returns exactly the original (ASCII) path. -/
lemma searchParamsGet_redirect (P : String) (h : ∀ c ∈ P.data, c.toNat < 128) :
    searchParamsGet ("redirect=" ++ encodeURIComponent P) "redirect" = some P := by
  have hdata : ("redirect=" ++ encodeURIComponent P).data =
      "redirect".data ++ '=' :: encChars P.data := by
    rw [String.data_append]
    rfl
  have hsplit : splitPair ("redirect".data ++ '=' :: encChars P.data) =
      ("redirect".data, encChars P.data) :=
    splitPair_eq _ _ (by decide)
  have hkey : (formDecode (splitPair ("redirect".data ++ '=' :: encChars P.data)).1 ==
      "redirect") = true := by
    rw [hsplit]
    show (formDecode ("redirect".data) == "redirect") = true
    rw [formDecode_redirect_key]
    simp
  have hamp : ∀ c ∈ ("redirect".data ++ '=' :: encChars P.data), c ≠ '&' := by
    intro c hc
    rcases List.mem_append.mp hc with h1 | h2
    · exact (by decide : ∀ x ∈ "redirect".data, x ≠ '&') c h1
    · rcases List.mem_cons.mp h2 with rfl | h3
      · decide
      · exact encChars_ne_amp P.data h c h3
  have hlne : ("redirect".data ++ '=' :: encChars P.data).isEmpty = false := rfl
  have hfind : List.find? (fun piece => formDecode (splitPair piece).1 == "redirect")
      ["redirect".data ++ '=' :: encChars P.data] =
      some ("redirect".data ++ '=' :: encChars P.data) :=
    List.find?_cons_of_pos _ hkey
  unfold searchParamsGet
  rw [hdata, splitOn_no_sep '&' _ hamp]
  simp only [List.filter_cons, List.filter_nil, hlne, Bool.not_false, if_true]
  rw [hfind]
  show some (formDecode (splitPair ("redirect".data ++ '=' :: encChars P.data)).2) =
    some P
  rw [hsplit]
  show some (String.mk (utf8Decode (percentDecodeBytes (encChars P.data)))) = some P
  rw [decode_encChars P.data h]

/-- The query of the sign-in URL the source builds for `P`. -/
lemma queryOf_signIn (P : String) :
    queryOf (signInPathWithReturnTo P) = "redirect=" ++ encodeURIComponent P := by
  have hdata : (signInPathWithReturnTo P).data =
      "/signin".data ++ '?' :: ("redirect=" ++ encodeURIComponent P).data := by
    rw [signInPathWithReturnTo, String.data_append, String.data_append]
    rfl
  rw [queryOf, hdata, afterFirst_append '?' _ _ (by decide)]

/-- **C5**: the redirect-intent encoding round-trips — for every valid
path `P` (leading `/`, ASCII, including reserved query characters),
decoding the `redirect` parameter of the query of the sign-in URL built
for `P` yields exactly `P`. -/
theorem returnTo_round_trip (P : String) (h : ValidPath P) :
    resolveReturnTo (queryOf (signInPathWithReturnTo P)) = P := by
  obtain ⟨hstart, hascii⟩ := h
  rw [queryOf_signIn, resolveReturnTo, searchParamsGet_redirect P hascii, jsOr]
  have hne : P.data.isEmpty = false := by
    cases hd : P.data with
    | nil =>
      rw [jsStartsWith, hd] at hstart
      exact absurd hstart (by decide)
    | cons c cs => rfl
  rw [hne]
  simp

/-- Witness for `returnTo_round_trip`: a path with reserved query
characters survives the round trip. -/
theorem returnTo_round_trip_witness :
    ValidPath "/admin/billing?x=1&y=2" ∧
    resolveReturnTo (queryOf (signInPathWithReturnTo "/admin/billing?x=1&y=2")) =
      "/admin/billing?x=1&y=2" :=
  ⟨by decide, returnTo_round_trip "/admin/billing?x=1&y=2" (by decide)⟩

end RouteGuard
